import Mathlib

/-!
Shallow embedding of the LuckyPot Discord bot (src/lucky_pot.py, src/db.py,
src/stk.py).  The SQLite database is modelled as lists of rows; timestamps
are integers (seconds); SQL `datetime('now', '-6 hours')` becomes
`now - 21600` and `'-1 hour'` becomes `now - 3600`.  Columns the logic never
reads or writes (`last_entry_time`, `created_at` on users, the unused
`stackcoin_requests` table) are omitted.  External ledger calls
(`send_winnings_to_user`, `stackcoin_deny_request`, `random`) are modelled as
boolean/number oracles passed in as parameters.
-/

namespace LuckyPot

/-- `pot_entries.status`: TEXT column holding one of the four literals used by
the code, modelled as an enumeration. -/
inductive EntryStatus where
  | unconfirmed
  | confirmed
  | instant_win
  | denied
deriving DecidableEq, Repr

/-- Row of the `users` table (fields the logic reads/writes). -/
structure UserRow where
  discord_id : String
  guild_id : String
  total_wins : Int
  total_winnings : Int
deriving DecidableEq, Repr

/-- Row of the `pots` table. -/
structure Pot where
  pot_id : Nat
  guild_id : String
  winner_id : Option String
  winning_amount : Int
  created_at : Int
  won_at : Option Int
  is_active : Bool
deriving DecidableEq, Repr

/-- Row of the `pot_entries` table. -/
structure PotEntry where
  entry_id : Nat
  pot_id : Nat
  discord_id : String
  guild_id : String
  amount : Int
  status : EntryStatus
  stackcoin_request_id : String
  created_at : Int
  confirmed_at : Option Int
deriving DecidableEq, Repr

/-- Result row of the `GROUP BY discord_id` / `COUNT(*)` query in
`get_active_pot_participants`. -/
structure Participant where
  discord_id : String
  entries : Nat
deriving DecidableEq, Repr

/-- Result row of the `GROUP BY discord_id` / `COUNT(*)`, `SUM(amount)` query
in `get_pot_status`. -/
structure ParticipantWithAmount where
  discord_id : String
  entry_count : Nat
  total_amount : Int
deriving DecidableEq, Repr

/-- The dictionary returned by `Database.get_pot_status` when a current pot
exists (`exists: False` is modelled as `Option.none`). -/
structure PotStatusR where
  pot_id : Nat
  total_amount : Int
  participant_count : Nat
  participants : List ParticipantWithAmount
  created_at : Int
deriving DecidableEq, Repr

/-- The whole SQLite database. -/
structure DB where
  users : List UserRow
  pots : List Pot
  entries : List PotEntry
deriving DecidableEq, Repr

/-- `ORDER BY created_at DESC` on pots: `p` may precede `q`. -/
def potLater (p q : Pot) : Prop :=
  q.created_at ≤ p.created_at

instance : DecidableRel potLater :=
  fun p q => decidable_of_iff (q.created_at ≤ p.created_at) Iff.rfl

/-- `ORDER BY pe.created_at ASC` on joined entry rows: `a` may precede `b`. -/
def rowEarlier (a b : PotEntry × String) : Prop :=
  a.1.created_at ≤ b.1.created_at

instance : DecidableRel rowEarlier :=
  fun a b => decidable_of_iff (a.1.created_at ≤ b.1.created_at) Iff.rfl

/-- SQL `UPDATE pot_entries SET ... WHERE entry_id = ?`: rewrite every row
whose `entry_id` matches. -/
def mapUpd (l : List PotEntry) (eid : Nat) (g : PotEntry → PotEntry) : List PotEntry :=
  l.map (fun e => if e.entry_id = eid then g e else e)

/-- `Database.get_or_create_user`: `INSERT OR IGNORE INTO users`. -/
def get_or_create_user (db : DB) (did gid : String) : DB :=
  if db.users.any (fun u => decide (u.discord_id = did ∧ u.guild_id = gid)) then db
  else { db with users := db.users ++ [⟨did, gid, 0, 0⟩] }

/-- The `WHERE guild_id = ? AND is_active = TRUE AND winner_id IS NULL`
predicate shared by `get_current_pot` and `win_pot`. -/
def potIsCurrent (gid : String) (p : Pot) : Bool :=
  decide (p.guild_id = gid ∧ p.is_active = true ∧ p.winner_id = none)

/-- `Database.get_current_pot`: current pot of the guild, most recent
`created_at` first (`ORDER BY created_at DESC LIMIT 1`). -/
def get_current_pot (db : DB) (gid : String) : Option Pot :=
  (List.insertionSort potLater (db.pots.filter (potIsCurrent gid))).head?

/-- `AUTOINCREMENT` for `pots.pot_id`. -/
def nextPotId (db : DB) : Nat :=
  (db.pots.map (fun p => p.pot_id)).foldl max 0 + 1

/-- `Database.create_new_pot`: insert a fresh active pot, return its id. -/
def create_new_pot (db : DB) (gid : String) (now : Int) : DB × Nat :=
  let pid := nextPotId db
  ({ db with pots := db.pots ++ [⟨pid, gid, none, 0, now, none, true⟩] }, pid)

/-- The row predicate of `Database.can_user_enter_pot`: same user, guild and
pot, created strictly within the trailing 6 hours, status `confirmed` or
`unconfirmed`. -/
def cooldownHit (now : Int) (did gid : String) (pid : Nat) (e : PotEntry) : Bool :=
  decide (e.discord_id = did ∧ e.guild_id = gid ∧ e.pot_id = pid ∧
    now - 21600 < e.created_at ∧
    (e.status = .confirmed ∨ e.status = .unconfirmed))

/-- `Database.can_user_enter_pot`: `SELECT COUNT(*) ... ; return count == 0`. -/
def can_user_enter_pot (db : DB) (now : Int) (did gid : String) (pid : Nat) : Bool :=
  (db.entries.filter (cooldownHit now did gid pid)).length = 0

/-- `AUTOINCREMENT` for `pot_entries.entry_id`. -/
def nextEntryId (db : DB) : Nat :=
  (db.entries.map (fun e => e.entry_id)).foldl max 0 + 1

/-- `Database.create_pot_entry`: insert the entry with the default status
`unconfirmed` and default amount 5, then — in a second statement, as in the
source — rewrite the status to `instant_win` when the flag is set. -/
def create_pot_entry (db : DB) (now : Int) (pid : Nat) (did gid reqId : String)
    (isInstantWin : Bool) : DB × Nat :=
  let eid := nextEntryId db
  let db1 := { db with entries := db.entries ++ [⟨eid, pid, did, gid, 5, .unconfirmed, reqId, now, none⟩] }
  let db2 :=
    if isInstantWin then
      { db1 with entries := mapUpd db1.entries eid (fun e => { e with status := .instant_win }) }
    else db1
  (db2, eid)

/-- One step of SQL `GROUP BY discord_id` with `COUNT(*)` and `SUM(amount)`:
bump the row's group or open a new one (groups appear in first-occurrence
order). -/
def bumpGroup : List ParticipantWithAmount → String → Int → List ParticipantWithAmount
  | [], did, amt => [⟨did, 1, amt⟩]
  | g :: gs, did, amt =>
    if g.discord_id = did then
      ⟨g.discord_id, g.entry_count + 1, g.total_amount + amt⟩ :: gs
    else g :: bumpGroup gs did amt

/-- `GROUP BY discord_id` over a list of entry rows. -/
def groupByUser (rows : List PotEntry) : List ParticipantWithAmount :=
  rows.foldl (fun acc e => bumpGroup acc e.discord_id e.amount) []

/-- `WHERE pot_id = ? AND status = 'confirmed'` — the row set both
aggregation queries of `get_pot_status` run over. -/
def confirmedRows (db : DB) (pid : Nat) : List PotEntry :=
  db.entries.filter (fun e => decide (e.pot_id = pid ∧ e.status = .confirmed))

/-- `ORDER BY entry_count DESC, total_amount DESC`: `p` may precede `q`. -/
def partBefore (p q : ParticipantWithAmount) : Prop :=
  q.entry_count < p.entry_count ∨
    (p.entry_count = q.entry_count ∧ q.total_amount ≤ p.total_amount)

instance : DecidableRel partBefore :=
  fun p q => decidable_of_iff
    (q.entry_count < p.entry_count ∨
      (p.entry_count = q.entry_count ∧ q.total_amount ≤ p.total_amount)) Iff.rfl

instance : IsTotal ParticipantWithAmount partBefore where
  total p q := by
    rcases Nat.lt_trichotomy p.entry_count q.entry_count with h | h | h
    · exact Or.inr (Or.inl h)
    · rcases Int.le_total q.total_amount p.total_amount with h2 | h2
      · exact Or.inl (Or.inr ⟨h, h2⟩)
      · exact Or.inr (Or.inr ⟨h.symm, h2⟩)
    · exact Or.inl (Or.inl h)

instance : IsTrans ParticipantWithAmount partBefore where
  trans p q s hpq hqs := by
    rcases hpq with h1 | ⟨h1, h1a⟩
    · rcases hqs with h2 | ⟨h2, _⟩
      · exact Or.inl (h2.trans h1)
      · exact Or.inl (h2 ▸ h1)
    · rcases hqs with h2 | ⟨h2, h2a⟩
      · exact Or.inl (h1 ▸ h2)
      · exact Or.inr ⟨h1.trans h2, h2a.trans h1a⟩

/-- `Database.get_pot_status`: `None` when the guild has no current pot, else
the confirmed-entry aggregation (participants ordered by entry count then
summed amount, both descending) and the grand total (`SUM ... or 0`). -/
def get_pot_status (db : DB) (gid : String) : Option PotStatusR :=
  match get_current_pot db gid with
  | none => none
  | some pot =>
    let rows := confirmedRows db pot.pot_id
    let participants := List.insertionSort partBefore (groupByUser rows)
    some ⟨pot.pot_id, (rows.map (fun e => e.amount)).sum, participants.length,
      participants, pot.created_at⟩

/-- `Database.confirm_entry`: set status `confirmed` and `confirmed_at`. -/
def confirm_entry (db : DB) (now : Int) (eid : Nat) : DB :=
  { db with entries := mapUpd db.entries eid (fun e => { e with status := .confirmed, confirmed_at := some now }) }

/-- `Database.deny_entry`: set status `denied`. -/
def deny_entry (db : DB) (eid : Nat) : DB :=
  { db with entries := mapUpd db.entries eid (fun e => { e with status := .denied }) }

/-- The `JOIN pots p ON pe.pot_id = p.pot_id` of the reconciliation reads:
pair the entry with its pot's guild id, dropping it if no pot matches. -/
def joinPotGuild (db : DB) (e : PotEntry) : Option (PotEntry × String) :=
  (db.pots.find? (fun p => decide (p.pot_id = e.pot_id))).map (fun p => (e, p.guild_id))

/-- `Database.get_unconfirmed_entries`: unconfirmed entries at most one hour
old, joined with their pot's guild, oldest first. -/
def get_unconfirmed_entries (db : DB) (now : Int) : List (PotEntry × String) :=
  List.insertionSort rowEarlier
    (db.entries.filterMap (fun e =>
      if e.status = .unconfirmed ∧ now - 3600 < e.created_at then joinPotGuild db e
      else none))

/-- `Database.get_expired_entries`: unconfirmed entries more than one hour
old, joined with their pot's guild, oldest first. -/
def get_expired_entries (db : DB) (now : Int) : List (PotEntry × String) :=
  List.insertionSort rowEarlier
    (db.entries.filterMap (fun e =>
      if e.status = .unconfirmed ∧ e.created_at ≤ now - 3600 then joinPotGuild db e
      else none))

/-- `Database.get_active_pot_participants`: `GROUP BY discord_id, COUNT(*)`
over the current pot's confirmed entries. -/
def get_active_pot_participants (db : DB) (gid : String) : List Participant :=
  match get_current_pot db gid with
  | none => []
  | some pot => (groupByUser (confirmedRows db pot.pot_id)).map
      (fun g => ⟨g.discord_id, g.entry_count⟩)

/-- `Database.win_pot`: close every pot of the guild matching
`is_active = TRUE AND winner_id IS NULL`, and — unconditionally — bump the
winner's `total_wins` / `total_winnings` user row. -/
def win_pot (db : DB) (now : Int) (gid wid : String) (amt : Int) : DB :=
  { db with
    pots := db.pots.map (fun p =>
      if potIsCurrent gid p then
        { p with winner_id := some wid, winning_amount := amt, won_at := some now, is_active := false }
      else p),
    users := db.users.map (fun u =>
      if u.discord_id = wid ∧ u.guild_id = gid then
        { u with total_wins := u.total_wins + 1, total_winnings := u.total_winnings + amt }
      else u) }

/-- `Database.get_all_active_guilds`: `SELECT DISTINCT guild_id FROM pots
WHERE is_active = TRUE`. -/
def get_all_active_guilds (db : DB) : List String :=
  ((db.pots.filter (fun p => p.is_active)).map (fun p => p.guild_id)).dedup

/-- Guild announcements emitted through `announce_to_guild`. -/
inductive Announcement where
  | instantWin (did : String) (amount : Int)
  | dailyWin (did : String) (amount : Int)
  | potContinues (total : Int)
  | forceWin (did : String) (amount : Int)
deriving DecidableEq, Repr

/-- The instant-win payout block of `process_stackcoin_requests`
(src/lucky_pot.py lines 466-486): re-read the pot status; if a pot exists,
send the current total to the entrant (`sendOk` models the outcome of
`send_winnings_to_user`) and, only on success, `win_pot` and announce. -/
def instant_win_payout (db : DB) (now : Int) (gid did : String)
    (sendOk : String → Int → Bool) : DB × List Announcement :=
  match get_pot_status db gid with
  | none => (db, [])
  | some st =>
    if sendOk did st.total_amount then
      (win_pot db now gid did st.total_amount, [.instantWin did st.total_amount])
    else (db, [])

/-- One iteration of the confirmation loop of `process_stackcoin_requests`:
if the entry's `stackcoin_request_id` is among the accepted ledger requests,
confirm it, and — when the snapshot row's status was `instant_win` — run the
instant-win payout block. -/
def confirmationStep (now : Int) (accepted : List String) (sendOk : String → Int → Bool)
    (acc : DB × List Announcement) (row : PotEntry × String) : DB × List Announcement :=
  if row.1.stackcoin_request_id ∈ accepted then
    let db1 := confirm_entry acc.1 now row.1.entry_id
    if row.1.status = .instant_win then
      let pr := instant_win_payout db1 now row.2 row.1.discord_id sendOk
      (pr.1, acc.2 ++ pr.2)
    else (db1, acc.2)
  else acc

/-- The confirmation pass of `process_stackcoin_requests`: fold the
confirmation step over the snapshot of unconfirmed entries. -/
def confirmationPass (db : DB) (now : Int) (accepted : List String)
    (sendOk : String → Int → Bool) : DB × List Announcement :=
  (get_unconfirmed_entries db now).foldl (confirmationStep now accepted sendOk) (db, [])

/-- One iteration of the expiry loop: ask the ledger to deny the request
(`denyOk` models whether that external call succeeded), and only then mark
the entry denied; on failure the entry is left as is for the next tick. -/
def expiryStep (denyOk : String → Bool) (db : DB) (row : PotEntry × String) : DB :=
  if denyOk row.1.stackcoin_request_id then deny_entry db row.1.entry_id else db

/-- The expiry pass of `process_stackcoin_requests`. -/
def expiryPass (db : DB) (now : Int) (denyOk : String → Bool) : DB :=
  (get_expired_entries db now).foldl (expiryStep denyOk) db

/-- `process_stackcoin_requests`: confirmation pass, then expiry pass. -/
def process_stackcoin_requests (db : DB) (now : Int) (accepted : List String)
    (sendOk : String → Int → Bool) (denyOk : String → Bool) : DB × List Announcement :=
  let c := confirmationPass db now accepted sendOk
  (expiryPass c.1 now denyOk, c.2)

/-- The weighted multiset built by the draw code
(`weighted_participants.extend([discord_id] * entries)` loop). -/
def weightedParticipants (ps : List Participant) : List String :=
  ps.foldl (fun acc p => acc ++ List.replicate p.entries p.discord_id) []

/-- `random.choice(weighted_participants)`: a uniform draw from the weighted
multiset, modelled by an index reduced modulo the multiset size; on an empty
multiset there is no element to return. -/
def selectWeightedWinner (ps : List Participant) (idx : Nat) : Option String :=
  (weightedParticipants ps).get? (idx % (weightedParticipants ps).length)

/-- The probability that a uniform draw from the weighted multiset
(`random.choice` picks each list position with equal probability) returns
`did`: multiplicity of `did` divided by the size of the multiset. -/
def winProbability (ps : List Participant) (did : String) : ℚ :=
  ((weightedParticipants ps).count did : ℚ) / ((weightedParticipants ps).length : ℚ)

/-- The per-guild body of `daily_pot_draw` (src/lucky_pot.py lines 514-557):
skip guilds without a pot or without participants; flip the 40% coin
(`coin` models `random.random() < 0.4`); on a draw, re-read the participants,
pick the weighted winner (`idx` models `random.choice`), send the winnings and
only on success close the pot and announce; with an empty participant re-read
announce that the pot continues; on a no-draw coin do nothing. -/
def daily_pot_draw_guild (db : DB) (now : Int) (gid : String) (coin : Bool) (idx : Nat)
    (sendOk : String → Int → Bool) : DB × List Announcement :=
  match get_pot_status db gid with
  | none => (db, [])
  | some st =>
    if st.participant_count = 0 then (db, [])
    else if coin then
      let participants := get_active_pot_participants db gid
      if participants.isEmpty then (db, [.potContinues st.total_amount])
      else
        match selectWeightedWinner participants idx with
        | none => (db, [])
        | some winner =>
          if sendOk winner st.total_amount then
            (win_pot db now gid winner st.total_amount, [.dailyWin winner st.total_amount])
          else (db, [])
    else (db, [])

/-- The body of the debug `ForceEndPot.invoke` command
(src/lucky_pot.py lines 744-800): like the daily draw without the coin flip,
with its own guard responses and announcement label. -/
def force_end_pot_guild (db : DB) (now : Int) (gid : String) (idx : Nat)
    (sendOk : String → Int → Bool) : DB × List Announcement :=
  match get_pot_status db gid with
  | none => (db, [])
  | some st =>
    if st.participant_count = 0 then (db, [])
    else
      let participants := get_active_pot_participants db gid
      if participants.isEmpty then (db, [])
      else
        match selectWeightedWinner participants idx with
        | none => (db, [])
        | some winner =>
          if sendOk winner st.total_amount then
            (win_pot db now gid winner st.total_amount, [.forceWin winner st.total_amount])
          else (db, [])

/-- Outbound ledger calls made by `EnterPot.invoke`. -/
inductive LedgerCall where
  | resolveUser (did : String)
  | createRequest (did : String) (amount : Int)
deriving DecidableEq, Repr

/-- The user-visible outcome of `EnterPot.invoke`. -/
inductive EnterResult where
  | notRegistered
  | cooldown
  | idFailure
  | paymentFailed
  | instantWinMsg (total : Int)
  | pending
deriving DecidableEq, Repr

/-- `EnterPot.invoke` (src/lucky_pot.py lines 601-677): resolve the user
(`userOk` collapses the two registration checks), ensure a user row, fetch or
create the current pot, check the cooldown, check the ledger user id
(`idOk`), create the 5 STK debit request (`reqOk` models whether the ledger
returned a `CreateRequestResponse`), roll instant win (`instantWin` models
`random.random() < 0.05`) and persist the entry.  Returns the new database,
the ledger calls made, and the response. -/
def enter_pot (db : DB) (now : Int) (gid did reqId : String)
    (userOk idOk reqOk instantWin : Bool) : DB × List LedgerCall × EnterResult :=
  if !userOk then (db, [.resolveUser did], .notRegistered)
  else
    let db1 := get_or_create_user db did gid
    let pr :=
      match get_current_pot db1 gid with
      | none => create_new_pot db1 gid now
      | some pot => (db1, pot.pot_id)
    if !can_user_enter_pot pr.1 now did gid pr.2 then (pr.1, [.resolveUser did], .cooldown)
    else if !idOk then (pr.1, [.resolveUser did], .idFailure)
    else if !reqOk then (pr.1, [.resolveUser did, .createRequest did 5], .paymentFailed)
    else
      let cr := create_pot_entry pr.1 now pr.2 did gid reqId instantWin
      if instantWin then
        let total := (match get_pot_status cr.1 gid with
          | some st => st.total_amount
          | none => 0) + 5
        (cr.1, [.resolveUser did, .createRequest did 5], .instantWinMsg total)
      else (cr.1, [.resolveUser did, .createRequest did 5], .pending)

/-- The store-mutating operations of the program, as its handlers and
background tasks invoke them. -/
inductive Op where
  | enter (now : Int) (gid did reqId : String) (userOk idOk reqOk instantWin : Bool)
  | reconcile (now : Int) (accepted : List String)
      (sendOk : String → Int → Bool) (denyOk : String → Bool)
  | daily (now : Int) (gid : String) (coin : Bool) (idx : Nat)
      (sendOk : String → Int → Bool)
  | forceEnd (now : Int) (gid : String) (idx : Nat) (sendOk : String → Int → Bool)

/-- The database after one program operation. -/
def applyOp (db : DB) : Op → DB
  | .enter now gid did reqId u i r w => (enter_pot db now gid did reqId u i r w).1
  | .reconcile now accepted s d => (process_stackcoin_requests db now accepted s d).1
  | .daily now gid c idx s => (daily_pot_draw_guild db now gid c idx s).1
  | .forceEnd now gid idx s => (force_end_pot_guild db now gid idx s).1

/-- The database after a sequence of program operations. -/
def applyOps (db : DB) (ops : List Op) : DB :=
  ops.foldl applyOp db

/-- The status of the entry with a given id (the first matching row, as
SQLite addresses rows by `entry_id`). -/
def statusOf (db : DB) (eid : Nat) : Option EntryStatus :=
  (db.entries.find? (fun e => decide (e.entry_id = eid))).map (fun e => e.status)

/-- Entry ids of the database. -/
def entryIds (db : DB) : List Nat :=
  db.entries.map (fun e => e.entry_id)

/-- Well-formedness: entry ids are pairwise distinct (the `entry_id` primary
key). -/
def WF (db : DB) : Prop :=
  (entryIds db).Nodup

/-- Between two database states, every entry either keeps its status or moves
from `unconfirmed` to some other status: the forward direction of the entry
state machine. -/
def EntriesForward (db db2 : DB) : Prop :=
  ∀ (eid : Nat) (s : EntryStatus), statusOf db eid = some s →
    statusOf db2 eid = some s ∨
      (s = .unconfirmed ∧ ∃ t, statusOf db2 eid = some t ∧ t ≠ .unconfirmed)

/-! Concrete databases used to evaluate the model. -/

/-- An open pot for guild `g`. -/
def examplePot : Pot := ⟨1, "g", none, 0, 0, none, true⟩

/-- Pot with entries confirmed(5, A), confirmed(5, A), instant_win(5, B). -/
def statusExampleDb : DB :=
  ⟨[], [examplePot],
   [⟨1, 1, "A", "g", 5, .confirmed, "r1", 0, some 10⟩,
    ⟨2, 1, "A", "g", 5, .confirmed, "r2", 0, some 11⟩,
    ⟨3, 1, "B", "g", 5, .instant_win, "r3", 0, none⟩]⟩

/-- One user row and no pot at all (so no pot matches the
`is_active = TRUE AND winner_id IS NULL` predicate). -/
def noPotDb : DB := ⟨[⟨"A", "g", 0, 0⟩], [], []⟩

/-- A pending instant-win entry whose ledger request `42` will be accepted. -/
def instantWinDb : DB :=
  ⟨[⟨"B", "g", 0, 0⟩], [examplePot],
   [⟨1, 1, "B", "g", 5, .instant_win, "42", 0, none⟩]⟩

/-- An open pot with a single confirmed participant `A`. -/
def onePlayerDb : DB :=
  ⟨[⟨"A", "g", 0, 0⟩], [examplePot],
   [⟨1, 1, "A", "g", 5, .confirmed, "r1", 0, some 10⟩]⟩

/-- An open pot with one fresh unconfirmed entry for `A` (request `r1`). -/
def pendingEntryDb : DB :=
  ⟨[⟨"A", "g", 0, 0⟩], [examplePot],
   [⟨1, 1, "A", "g", 5, .unconfirmed, "r1", 0, none⟩]⟩

/-! ## Shared lemmas -/

theorem can_user_enter_pot_eq_false_iff (db : DB) (now : Int) (did gid : String) (pid : Nat) :
    can_user_enter_pot db now did gid pid = false ↔
      ∃ e ∈ db.entries, e.discord_id = did ∧ e.guild_id = gid ∧ e.pot_id = pid ∧
        now - 21600 < e.created_at ∧ (e.status = .confirmed ∨ e.status = .unconfirmed) := by
  simp only [can_user_enter_pot, decide_eq_false_iff_not, List.length_eq_zero,
    List.filter_eq_nil_iff, cooldownHit, decide_eq_true_eq, not_forall]
  constructor
  · rintro ⟨e, he, hne⟩
    exact ⟨e, he, not_not.mp hne⟩
  · rintro ⟨e, he, hp⟩
    exact ⟨e, he, not_not.mpr hp⟩

theorem can_user_enter_pot_eq_true_of (db : DB) (now : Int) (did gid : String) (pid : Nat)
    (h : ∀ e ∈ db.entries, e.discord_id = did → e.guild_id = gid → e.pot_id = pid →
      now - 21600 < e.created_at → ¬(e.status = .confirmed ∨ e.status = .unconfirmed)) :
    can_user_enter_pot db now did gid pid = true := by
  cases hc : can_user_enter_pot db now did gid pid with
  | true => rfl
  | false =>
    obtain ⟨e, he, h1, h2, h3, h4, h5⟩ := (can_user_enter_pot_eq_false_iff db now did gid pid).mp hc
    exact absurd h5 (h e he h1 h2 h3 h4)

/-! ## C5 -/

/-- C5: `canUserEnterPot` returns false iff an entry for that
(user, guild, pot) with status `confirmed` or `unconfirmed` exists whose
`created_at` is within 6 hours of now; entries with status `denied` never
block, and entries of a different pot never block (a new pot resets
eligibility). -/
theorem c5_cooldown_iff (db : DB) (now : Int) (did gid : String) (pid : Nat) :
    (can_user_enter_pot db now did gid pid = false ↔
      ∃ e ∈ db.entries, e.discord_id = did ∧ e.guild_id = gid ∧ e.pot_id = pid ∧
        now - 21600 < e.created_at ∧ (e.status = .confirmed ∨ e.status = .unconfirmed)) ∧
    ((∀ e ∈ db.entries, e.discord_id = did → e.guild_id = gid → e.pot_id = pid →
        now - 21600 < e.created_at → e.status = .denied) →
      can_user_enter_pot db now did gid pid = true) ∧
    ((∀ e ∈ db.entries, e.pot_id ≠ pid) →
      can_user_enter_pot db now did gid pid = true) := by
  refine ⟨can_user_enter_pot_eq_false_iff db now did gid pid, ?_, ?_⟩
  · intro h
    refine can_user_enter_pot_eq_true_of db now did gid pid ?_
    intro e he h1 h2 h3 h4
    rw [h e he h1 h2 h3 h4]
    rintro (h5 | h5) <;> exact EntryStatus.noConfusion h5
  · intro h
    refine can_user_enter_pot_eq_true_of db now did gid pid ?_
    intro e he _ _ h3 _
    exact absurd h3 (h e he)

/-- Witness for C5: in `pendingEntryDb` the fresh unconfirmed entry of `A`
in pot 1 blocks re-entry, while pot 2 (which has no entries) does not. -/
theorem c5_witness :
    can_user_enter_pot pendingEntryDb 100 "A" "g" 1 = false ∧
    can_user_enter_pot pendingEntryDb 100 "A" "g" 2 = true := by
  constructor
  · exact (c5_cooldown_iff pendingEntryDb 100 "A" "g" 1).1.mpr
      ⟨⟨1, 1, "A", "g", 5, .unconfirmed, "r1", 0, none⟩, by decide⟩
  · exact (c5_cooldown_iff pendingEntryDb 100 "A" "g" 2).2.2 (by decide)

/-! ## C10 -/

/-- C10: a pending `instant_win` entry does not trigger the cooldown — if
every entry of the user for that guild and pot has status `instant_win`,
`canUserEnterPot` returns true, so the user can immediately enter the same
pot again before the instant win is resolved. -/
theorem c10_instant_win_not_blocking (db : DB) (now : Int) (did gid : String) (pid : Nat)
    (h : ∀ e ∈ db.entries, e.discord_id = did → e.guild_id = gid → e.pot_id = pid →
      e.status = .instant_win) :
    can_user_enter_pot db now did gid pid = true := by
  refine can_user_enter_pot_eq_true_of db now did gid pid ?_
  intro e he h1 h2 h3 _
  rw [h e he h1 h2 h3]
  rintro (h5 | h5) <;> exact EntryStatus.noConfusion h5

/-- Witness for C10: `B` holds a pending instant-win entry in pot 1 of
`instantWinDb`, created within the last 6 hours, yet may enter again. -/
theorem c10_witness :
    can_user_enter_pot instantWinDb 100 "B" "g" 1 = true :=
  c10_instant_win_not_blocking instantWinDb 100 "B" "g" 1 (by decide)

/-! ## C2 -/

theorem pot_status_participants_sorted (db : DB) (gid : String) (st : PotStatusR)
    (h : get_pot_status db gid = some st) : List.Sorted partBefore st.participants := by
  unfold get_pot_status at h
  cases hc : get_current_pot db gid with
  | none => rw [hc] at h; exact absurd h (by simp)
  | some pot =>
    rw [hc] at h
    simp only [Option.some.injEq] at h
    subst h
    exact List.sorted_insertionSort partBefore _

/-- C2 counterexample: on a pot whose entries are
confirmed(5, A), confirmed(5, A), instant_win(5, B), `getPotStatus` returns
total_amount 10 and participant_count 1: the `instant_win` entry is not
aggregated, so the claimed total 15 / count 2 is wrong. -/
theorem c2_counterexample :
    (get_pot_status statusExampleDb "g").map
        (fun st => (st.total_amount, st.participant_count)) = some (10, 1) ∧
      ((10 : Int), (1 : Nat)) ≠ ((15 : Int), (2 : Nat)) := by
  decide

/-- C2 amended: `getPotStatus` aggregates only `confirmed` entries (pending
`instant_win` entries are excluded): on the entry list confirmed(5, A),
confirmed(5, A), instant_win(5, B) it returns total_amount 10,
participant_count 1 and participants [A: count 2, total 10]; participants are
always ordered by entry count descending then summed amount descending. -/
theorem c2_status_aggregation :
    get_pot_status statusExampleDb "g" = some ⟨1, 10, 1, [⟨"A", 2, 10⟩], 0⟩ ∧
    ∀ (db : DB) (gid : String) (st : PotStatusR), get_pot_status db gid = some st →
      List.Sorted partBefore st.participants :=
  ⟨by decide, pot_status_participants_sorted⟩

/-- Witness for C2: the participants list computed on `statusExampleDb` is
sorted by the `ORDER BY` relation. -/
theorem c2_witness :
    List.Sorted partBefore [(⟨"A", 2, 10⟩ : ParticipantWithAmount)] :=
  c2_status_aggregation.2 statusExampleDb "g" ⟨1, 10, 1, [⟨"A", 2, 10⟩], 0⟩ (by decide)

/-! ## C3 -/

/-- C3 counterexample: with no pot row at all (so certainly none matching
`is_active = TRUE AND winner_id IS NULL`), `winPot` still rewrites the
winner's user row: `A` goes from 0 wins / 0 winnings to 1 win / 100
winnings, so the call is not a silent no-op. -/
theorem c3_counterexample :
    (∀ p ∈ noPotDb.pots, ¬(p.guild_id = "g" ∧ p.is_active = true ∧ p.winner_id = none)) ∧
    (win_pot noPotDb 5 "g" "A" 100).users ≠ noPotDb.users ∧
    (win_pot noPotDb 5 "g" "A" 100).users =
      [⟨"A", "g", 1, 100⟩] := by
  decide

/-- C3 amended: when no pot row of the guild satisfies
`is_active = TRUE AND winner_id IS NULL`, `winPot` leaves the pots table
unchanged, but it still unconditionally increments the winner's user row
(`total_wins` + 1, `total_winnings` + amount) whenever such a user row
exists; it is a true no-op only when the winner has no user row. -/
theorem c3_win_pot_no_current_pot (db : DB) (now : Int) (gid wid : String) (amt : Int)
    (h : ∀ p ∈ db.pots, ¬(p.guild_id = gid ∧ p.is_active = true ∧ p.winner_id = none)) :
    (win_pot db now gid wid amt).pots = db.pots ∧
    ∀ u ∈ db.users, u.discord_id = wid → u.guild_id = gid →
      (⟨u.discord_id, u.guild_id, u.total_wins + 1, u.total_winnings + amt⟩ : UserRow) ∈
        (win_pot db now gid wid amt).users := by
  constructor
  · show db.pots.map _ = db.pots
    have hid : ∀ p ∈ db.pots,
        (if potIsCurrent gid p then ({ p with winner_id := some wid, winning_amount := amt, won_at := some now, is_active := false } : Pot) else p) = p := by
      intro p hp
      rw [if_neg]
      simp only [potIsCurrent, decide_eq_true_eq]
      exact h p hp
    rw [List.map_congr_left hid]
    exact List.map_id db.pots
  · intro u hu h1 h2
    have hm : (if u.discord_id = wid ∧ u.guild_id = gid then ({ u with total_wins := u.total_wins + 1, total_winnings := u.total_winnings + amt } : UserRow) else u) ∈ (win_pot db now gid wid amt).users :=
      List.mem_map_of_mem _ hu
    rw [if_pos ⟨h1, h2⟩] at hm
    exact hm

/-- Witness for C3: on `noPotDb` the pots table is untouched and `A`'s row
is bumped to 1 win / 100 winnings. -/
theorem c3_witness :
    (win_pot noPotDb 5 "g" "A" 100).pots = noPotDb.pots ∧
    (⟨"A", "g", 1, 100⟩ : UserRow) ∈ (win_pot noPotDb 5 "g" "A" 100).users := by
  have h := c3_win_pot_no_current_pot noPotDb 5 "g" "A" 100 (by decide)
  exact ⟨h.1, h.2 ⟨"A", "g", 0, 0⟩ (by decide) rfl rfl⟩

/-! ## C9 -/

/-- C9 counterexample: `onePlayerDb` has a current pot with one participant,
and on a no-draw coin flip the daily draw emits no announcement at all — the
claimed "pot continues" message is not sent. -/
theorem c9_counterexample :
    (get_pot_status onePlayerDb "g").map (fun st => st.participant_count) = some 1 ∧
    daily_pot_draw_guild onePlayerDb 100 "g" false 0 (fun _ _ => true) =
      (onePlayerDb, []) := by
  decide

/-- C9 amended: in the scheduled daily draw the biased coin decides whether
to draw, but on a no-draw outcome nothing is announced and no state changes
(the pot silently continues); guilds without a current pot, or whose pot has
no participant, are likewise skipped silently. -/
theorem c9_daily_draw_no_draw_silent :
    (∀ (db : DB) (now : Int) (gid : String) (idx : Nat) (sendOk : String → Int → Bool),
      daily_pot_draw_guild db now gid false idx sendOk = (db, [])) ∧
    (∀ (db : DB) (now : Int) (gid : String) (coin : Bool) (idx : Nat)
      (sendOk : String → Int → Bool),
      get_pot_status db gid = none →
      daily_pot_draw_guild db now gid coin idx sendOk = (db, [])) ∧
    (∀ (db : DB) (now : Int) (gid : String) (coin : Bool) (idx : Nat)
      (sendOk : String → Int → Bool) (st : PotStatusR),
      get_pot_status db gid = some st → st.participant_count = 0 →
      daily_pot_draw_guild db now gid coin idx sendOk = (db, [])) := by
  refine ⟨?_, ?_, ?_⟩
  · intro db now gid idx sendOk
    unfold daily_pot_draw_guild
    cases hm : get_pot_status db gid with
    | none => rfl
    | some st => simp
  · intro db now gid coin idx sendOk h
    unfold daily_pot_draw_guild
    rw [h]
  · intro db now gid coin idx sendOk st h h0
    unfold daily_pot_draw_guild
    rw [h]
    simp [h0]

/-- Witness for C9: a guild with no pot is skipped silently even on a draw
coin. -/
theorem c9_witness :
    daily_pot_draw_guild ⟨[], [], []⟩ 0 "g" true 0 (fun _ _ => false) =
      (⟨[], [], []⟩, []) :=
  c9_daily_draw_no_draw_silent.2.1 ⟨[], [], []⟩ 0 "g" true 0 (fun _ _ => false) (by decide)

/-! ## C6 -/

theorem weighted_foldl_length (ps : List Participant) :
    ∀ acc : List String,
      (ps.foldl (fun acc p => acc ++ List.replicate p.entries p.discord_id) acc).length =
        acc.length + (ps.map (fun p => p.entries)).sum := by
  induction ps with
  | nil => intro acc; simp
  | cons p ps ih =>
    intro acc
    simp only [List.foldl_cons, List.map_cons, List.sum_cons]
    rw [ih, List.length_append, List.length_replicate]
    omega

theorem weighted_foldl_count (ps : List Participant) (did : String) :
    ∀ acc : List String,
      (ps.foldl (fun acc p => acc ++ List.replicate p.entries p.discord_id) acc).count did =
        acc.count did + (ps.map (fun p => if p.discord_id = did then p.entries else 0)).sum := by
  induction ps with
  | nil => intro acc; simp
  | cons p ps ih =>
    intro acc
    simp only [List.foldl_cons, List.map_cons, List.sum_cons]
    rw [ih, List.count_append, List.count_replicate]
    by_cases h : p.discord_id = did
    · simp [h]
      omega
    · simp [h]

theorem sum_entries_single_of_nodup (p : Participant) :
    ∀ ps : List Participant, (ps.map fun q => q.discord_id).Nodup → p ∈ ps →
      (ps.map (fun q => if q.discord_id = p.discord_id then q.entries else 0)).sum =
        p.entries := by
  intro ps
  induction ps with
  | nil => intro _ hp; cases hp
  | cons q ps ih =>
    intro hnd hp
    rw [List.map_cons, List.nodup_cons] at hnd
    rcases List.mem_cons.mp hp with heq | hp2
    · rw [heq]
      simp only [List.map_cons, List.sum_cons, if_pos rfl]
      have hz : (ps.map (fun r => if r.discord_id = q.discord_id then r.entries else 0)).sum = 0 := by
        refine List.sum_eq_zero ?_
        intro x hx
        obtain ⟨r, hr, hxr⟩ := List.mem_map.mp hx
        rw [← hxr, if_neg]
        intro hc
        exact hnd.1 (hc ▸ List.mem_map_of_mem _ hr)
      rw [hz]
      simp
    · have hq : q.discord_id ≠ p.discord_id := by
        intro hc
        exact hnd.1 (hc ▸ List.mem_map_of_mem _ hp2)
      simp only [List.map_cons, List.sum_cons, if_neg hq, Nat.zero_add]
      exact ih hnd.2 hp2

theorem participant_count_eq (db : DB) (gid : String) (st : PotStatusR)
    (h : get_pot_status db gid = some st) :
    st.participant_count = (get_active_pot_participants db gid).length := by
  unfold get_pot_status at h
  unfold get_active_pot_participants
  cases hc : get_current_pot db gid with
  | none => rw [hc] at h; exact absurd h (by simp)
  | some pot =>
    rw [hc] at h
    simp only [Option.some.injEq] at h
    subst h
    rw [List.length_map]
    exact (List.perm_insertionSort partBefore _).length_eq

theorem draw_skips_empty_participants (db : DB) (now : Int) (gid : String) (coin : Bool)
    (idx : Nat) (sendOk : String → Int → Bool)
    (h : get_active_pot_participants db gid = []) :
    (daily_pot_draw_guild db now gid coin idx sendOk).1 = db ∧
    (force_end_pot_guild db now gid idx sendOk).1 = db := by
  cases hm : get_pot_status db gid with
  | none =>
    unfold daily_pot_draw_guild force_end_pot_guild
    rw [hm]
    exact ⟨rfl, rfl⟩
  | some st =>
    have hc : st.participant_count = 0 := by
      rw [participant_count_eq db gid st hm, h]
      rfl
    unfold daily_pot_draw_guild force_end_pot_guild
    rw [hm]
    simp [hc]

/-- C6: the winner selection builds a multiset in which each participant id
occurs exactly `entries` times and draws uniformly from it, so the winning
probability is the participant's entry count over the total entry count; on
an empty participant list the selection yields no winner, and the draw paths
never select (and never mutate the store) when the participant list is
empty. -/
theorem c6_weighted_selection :
    (∀ (ps : List Participant) (p : Participant),
      (ps.map fun q => q.discord_id).Nodup → p ∈ ps →
      (weightedParticipants ps).count p.discord_id = p.entries ∧
      (weightedParticipants ps).length = (ps.map fun q => q.entries).sum ∧
      winProbability ps p.discord_id =
        (p.entries : ℚ) / ((((ps.map fun q => q.entries).sum : Nat)) : ℚ)) ∧
    (∀ idx : Nat, selectWeightedWinner [] idx = none) ∧
    (∀ (db : DB) (now : Int) (gid : String) (coin : Bool) (idx : Nat)
      (sendOk : String → Int → Bool),
      get_active_pot_participants db gid = [] →
      (daily_pot_draw_guild db now gid coin idx sendOk).1 = db ∧
      (force_end_pot_guild db now gid idx sendOk).1 = db) := by
  refine ⟨?_, ?_, draw_skips_empty_participants⟩
  · intro ps p hnd hp
    have hcount : (weightedParticipants ps).count p.discord_id = p.entries := by
      unfold weightedParticipants
      rw [weighted_foldl_count]
      simp only [List.count_nil, Nat.zero_add]
      exact sum_entries_single_of_nodup p ps hnd hp
    have hlen : (weightedParticipants ps).length = (ps.map fun q => q.entries).sum := by
      unfold weightedParticipants
      rw [weighted_foldl_length]
      simp
    refine ⟨hcount, hlen, ?_⟩
    unfold winProbability
    rw [hcount, hlen]
  · intro idx
    simp [selectWeightedWinner, weightedParticipants]

/-- Witness for C6: over participants [(A, 3), (B, 1)] the multiset holds
`A` three times out of four and `A` wins with probability 3/4. -/
theorem c6_witness :
    (weightedParticipants [⟨"A", 3⟩, ⟨"B", 1⟩]).count "A" = 3 ∧
    winProbability [⟨"A", 3⟩, ⟨"B", 1⟩] "A" = (3 : ℚ) / 4 := by
  have h := c6_weighted_selection.1 [⟨"A", 3⟩, ⟨"B", 1⟩] ⟨"A", 3⟩ (by decide) (by decide)
  refine ⟨h.1, ?_⟩
  rw [h.2.2]
  norm_num

/-! ## C4 -/

theorem instant_win_payout_cases (db : DB) (now : Int) (gid did : String)
    (sendOk : String → Int → Bool) :
    (instant_win_payout db now gid did sendOk).1 = db ∨
    ∃ st, get_pot_status db gid = some st ∧ sendOk did st.total_amount = true ∧
      instant_win_payout db now gid did sendOk =
        (win_pot db now gid did st.total_amount, [.instantWin did st.total_amount]) := by
  unfold instant_win_payout
  cases hm : get_pot_status db gid with
  | none => exact Or.inl rfl
  | some st =>
    dsimp only
    by_cases hs : sendOk did st.total_amount = true
    · exact Or.inr ⟨st, rfl, hs, by rw [if_pos hs]⟩
    · rw [if_neg hs]
      exact Or.inl rfl

theorem daily_draw_cases (db : DB) (now : Int) (gid : String) (coin : Bool) (idx : Nat)
    (sendOk : String → Int → Bool) :
    (daily_pot_draw_guild db now gid coin idx sendOk).1 = db ∨
    ∃ w st, get_pot_status db gid = some st ∧ sendOk w st.total_amount = true ∧
      daily_pot_draw_guild db now gid coin idx sendOk =
        (win_pot db now gid w st.total_amount, [.dailyWin w st.total_amount]) := by
  unfold daily_pot_draw_guild
  cases hm : get_pot_status db gid with
  | none => exact Or.inl rfl
  | some st =>
    dsimp only
    by_cases h0 : st.participant_count = 0
    · rw [if_pos h0]
      exact Or.inl rfl
    · rw [if_neg h0]
      cases coin with
      | false => exact Or.inl (by simp)
      | true =>
        simp only [if_true]
        by_cases he : (get_active_pot_participants db gid).isEmpty = true
        · rw [if_pos he]
          exact Or.inl rfl
        · rw [if_neg he]
          cases hw : selectWeightedWinner (get_active_pot_participants db gid) idx with
          | none => exact Or.inl rfl
          | some w =>
            dsimp only
            by_cases hs : sendOk w st.total_amount = true
            · exact Or.inr ⟨w, st, rfl, hs, by rw [if_pos hs]⟩
            · rw [if_neg hs]
              exact Or.inl rfl

theorem force_end_cases (db : DB) (now : Int) (gid : String) (idx : Nat)
    (sendOk : String → Int → Bool) :
    (force_end_pot_guild db now gid idx sendOk).1 = db ∨
    ∃ w st, get_pot_status db gid = some st ∧ sendOk w st.total_amount = true ∧
      force_end_pot_guild db now gid idx sendOk =
        (win_pot db now gid w st.total_amount, [.forceWin w st.total_amount]) := by
  unfold force_end_pot_guild
  cases hm : get_pot_status db gid with
  | none => exact Or.inl rfl
  | some st =>
    dsimp only
    by_cases h0 : st.participant_count = 0
    · rw [if_pos h0]
      exact Or.inl rfl
    · rw [if_neg h0]
      by_cases he : (get_active_pot_participants db gid).isEmpty = true
      · rw [if_pos he]
        exact Or.inl rfl
      · rw [if_neg he]
        cases hw : selectWeightedWinner (get_active_pot_participants db gid) idx with
        | none => exact Or.inl rfl
        | some w =>
          dsimp only
          by_cases hs : sendOk w st.total_amount = true
          · exact Or.inr ⟨w, st, rfl, hs, by rw [if_pos hs]⟩
          · rw [if_neg hs]
            exact Or.inl rfl

/-- C4: for every payout attempt (daily draw, instant win, forced draw),
`winPot` runs only after the funds-send reports success: when every send
fails, none of the three paths mutates the store (the database, and hence
the current pot, is unchanged), and conversely any mutation by a payout path
exhibits a successful send whose winner and amount parameterize the `winPot`
call. -/
theorem c4_win_pot_only_after_successful_send :
    (∀ (db : DB) (now : Int) (gid did : String) (coin : Bool) (idx : Nat)
      (sendOk : String → Int → Bool), (∀ w a, sendOk w a = false) →
      (daily_pot_draw_guild db now gid coin idx sendOk).1 = db ∧
      (instant_win_payout db now gid did sendOk).1 = db ∧
      (force_end_pot_guild db now gid idx sendOk).1 = db ∧
      get_current_pot (daily_pot_draw_guild db now gid coin idx sendOk).1 gid =
        get_current_pot db gid) ∧
    (∀ (db : DB) (now : Int) (gid : String) (coin : Bool) (idx : Nat)
      (sendOk : String → Int → Bool),
      (daily_pot_draw_guild db now gid coin idx sendOk).1 ≠ db →
      ∃ w a, sendOk w a = true ∧
        (daily_pot_draw_guild db now gid coin idx sendOk).1 = win_pot db now gid w a) := by
  constructor
  · intro db now gid did coin idx sendOk hfail
    have hd : (daily_pot_draw_guild db now gid coin idx sendOk).1 = db := by
      rcases daily_draw_cases db now gid coin idx sendOk with h | ⟨w, st, _, hs, _⟩
      · exact h
      · rw [hfail w st.total_amount] at hs
        exact absurd hs (by simp)
    have hi : (instant_win_payout db now gid did sendOk).1 = db := by
      rcases instant_win_payout_cases db now gid did sendOk with h | ⟨st, _, hs, _⟩
      · exact h
      · rw [hfail did st.total_amount] at hs
        exact absurd hs (by simp)
    have hf : (force_end_pot_guild db now gid idx sendOk).1 = db := by
      rcases force_end_cases db now gid idx sendOk with h | ⟨w, st, _, hs, _⟩
      · exact h
      · rw [hfail w st.total_amount] at hs
        exact absurd hs (by simp)
    exact ⟨hd, hi, hf, by rw [hd]⟩
  · intro db now gid coin idx sendOk hne
    rcases daily_draw_cases db now gid coin idx sendOk with h | ⟨w, st, _, hs, heq⟩
    · exact absurd h hne
    · exact ⟨w, st.total_amount, hs, by rw [heq]⟩

/-- Witness for C4: on `onePlayerDb` with an always-failing send, the daily
draw (with a winning coin), the instant-win payout and the forced draw all
leave the database untouched and the pot open. -/
theorem c4_witness :
    (daily_pot_draw_guild onePlayerDb 100 "g" true 0 (fun _ _ => false)).1 = onePlayerDb ∧
    (instant_win_payout onePlayerDb 100 "g" "A" (fun _ _ => false)).1 = onePlayerDb ∧
    (force_end_pot_guild onePlayerDb 100 "g" 0 (fun _ _ => false)).1 = onePlayerDb ∧
    get_current_pot (daily_pot_draw_guild onePlayerDb 100 "g" true 0 (fun _ _ => false)).1 "g" =
      get_current_pot onePlayerDb "g" :=
  c4_win_pot_only_after_successful_send.1 onePlayerDb 100 "g" "A" true 0
    (fun _ _ => false) (fun _ _ => rfl)

/-! ## C7 -/

theorem entries_get_or_create_user (db : DB) (did gid : String) :
    (get_or_create_user db did gid).entries = db.entries := by
  unfold get_or_create_user
  split <;> rfl

theorem enter_pot_outcomes (db : DB) (now : Int) (gid did reqId : String)
    (userOk idOk reqOk instantWin : Bool) :
    ((enter_pot db now gid did reqId userOk idOk reqOk instantWin).1.entries = db.entries ∧
      ((enter_pot db now gid did reqId userOk idOk reqOk instantWin).2.2 = .cooldown →
        (enter_pot db now gid did reqId userOk idOk reqOk instantWin).2.1 =
          [.resolveUser did])) ∨
    (reqOk = true ∧
      (enter_pot db now gid did reqId userOk idOk reqOk instantWin).2.2 ≠ .cooldown ∧
      ∃ (db2 : DB) (pid : Nat), db2.entries = db.entries ∧
        (enter_pot db now gid did reqId userOk idOk reqOk instantWin).1 =
          (create_pot_entry db2 now pid did gid reqId instantWin).1) := by
  unfold enter_pot
  cases userOk with
  | false => exact Or.inl ⟨rfl, fun h => nomatch h⟩
  | true =>
    simp only [Bool.not_true, Bool.false_eq_true, if_false]
    cases hp : get_current_pot (get_or_create_user db did gid) gid with
    | none =>
      dsimp only
      have hent : (create_new_pot (get_or_create_user db did gid) gid now).1.entries =
          db.entries := entries_get_or_create_user db did gid
      cases hc : can_user_enter_pot (create_new_pot (get_or_create_user db did gid) gid now).1
          now did gid (create_new_pot (get_or_create_user db did gid) gid now).2 with
      | false =>
        simp only [Bool.not_false, if_true]
        exact Or.inl ⟨hent, by simp⟩
      | true =>
        simp only [Bool.not_true, Bool.false_eq_true, if_false]
        cases idOk with
        | false => exact Or.inl ⟨hent, by simp⟩
        | true =>
          simp only [Bool.not_true, Bool.false_eq_true, if_false]
          cases reqOk with
          | false => exact Or.inl ⟨hent, by simp⟩
          | true =>
            simp only [Bool.not_true, Bool.false_eq_true, if_false]
            cases instantWin with
            | false =>
              refine Or.inr ⟨by simp, by simp, (create_new_pot (get_or_create_user db did gid) gid now).1, (create_new_pot (get_or_create_user db did gid) gid now).2, hent, ?_⟩
              rfl
            | true =>
              refine Or.inr ⟨by simp, by simp, (create_new_pot (get_or_create_user db did gid) gid now).1, (create_new_pot (get_or_create_user db did gid) gid now).2, hent, ?_⟩
              rfl
    | some pot =>
      dsimp only
      have hent : (get_or_create_user db did gid).entries = db.entries :=
        entries_get_or_create_user db did gid
      cases hc : can_user_enter_pot (get_or_create_user db did gid) now did gid pot.pot_id with
      | false =>
        simp only [Bool.not_false, if_true]
        exact Or.inl ⟨hent, by simp⟩
      | true =>
        simp only [Bool.not_true, Bool.false_eq_true, if_false]
        cases idOk with
        | false => exact Or.inl ⟨hent, by simp⟩
        | true =>
          simp only [Bool.not_true, Bool.false_eq_true, if_false]
          cases reqOk with
          | false => exact Or.inl ⟨hent, by simp⟩
          | true =>
            simp only [Bool.not_true, Bool.false_eq_true, if_false]
            cases instantWin with
            | false =>
              refine Or.inr ⟨by simp, by simp, get_or_create_user db did gid, pot.pot_id, hent, ?_⟩
              rfl
            | true =>
              refine Or.inr ⟨by simp, by simp, get_or_create_user db did gid, pot.pot_id, hent, ?_⟩
              rfl

/-- C7: entry admission is atomic with respect to its rejection points — when
the cooldown check fails, no debit-request ledger call is made (only the
user-resolution call happened) and no entry row is created; and when the
debit-request creation fails, no pot entry row is persisted. -/
theorem c7_admission_atomicity (db : DB) (now : Int) (gid did reqId : String)
    (userOk idOk reqOk instantWin : Bool) :
    ((enter_pot db now gid did reqId userOk idOk reqOk instantWin).2.2 = .cooldown →
      (enter_pot db now gid did reqId userOk idOk reqOk instantWin).2.1 =
        [.resolveUser did] ∧
      (enter_pot db now gid did reqId userOk idOk reqOk instantWin).1.entries =
        db.entries) ∧
    (reqOk = false →
      (enter_pot db now gid did reqId userOk idOk reqOk instantWin).1.entries =
        db.entries) := by
  rcases enter_pot_outcomes db now gid did reqId userOk idOk reqOk instantWin with
    ⟨hent, hcool⟩ | ⟨hreq, hncool, _⟩
  · exact ⟨fun h => ⟨hcool h, hent⟩, fun _ => hent⟩
  · refine ⟨fun h => absurd h hncool, fun h => ?_⟩
    rw [h] at hreq
    exact absurd hreq (by simp)

/-- Witness for C7: in `pendingEntryDb`, user `A` is rejected by the cooldown
without a debit-request call or a new entry row, and user `C`, whose
debit-request creation fails, gets no entry row either. -/
theorem c7_witness :
    (enter_pot pendingEntryDb 100 "g" "A" "r9" true true true false).2.1 =
      [.resolveUser "A"] ∧
    (enter_pot pendingEntryDb 100 "g" "A" "r9" true true true false).1.entries =
      pendingEntryDb.entries ∧
    (enter_pot pendingEntryDb 100 "g" "C" "r9" true true false false).1.entries =
      pendingEntryDb.entries := by
  have h1 := (c7_admission_atomicity pendingEntryDb 100 "g" "A" "r9"
    true true true false).1 (by decide)
  have h2 := (c7_admission_atomicity pendingEntryDb 100 "g" "C" "r9"
    true true false false).2 rfl
  exact ⟨h1.1, h1.2, h2⟩

/-! ## C8 and C1: reconciliation machinery -/

theorem foldl_inv {α β : Type _} (step : β → α → β) (P : β → Prop) (S : α → Prop) :
    ∀ l : List α, (∀ x ∈ l, S x) → (∀ b x, S x → P b → P (step b x)) →
      ∀ b, P b → P (l.foldl step b) := by
  intro l
  induction l with
  | nil => intro _ _ b hb; exact hb
  | cons x xs ih =>
    intro hl hstep b hb
    exact ih (fun y hy => hl y (List.mem_cons_of_mem x hy)) hstep _
      (hstep b x (hl x (List.mem_cons_self x xs)) hb)

theorem find?_append_of_some {α : Type _} {p : α → Bool} {l1 : List α} (l2 : List α)
    {e : α} (h : l1.find? p = some e) : (l1 ++ l2).find? p = some e := by
  induction l1 with
  | nil => cases h
  | cons a l ih =>
    by_cases hp : p a = true
    · rw [List.find?_cons_of_pos _ hp] at h
      rw [List.cons_append, List.find?_cons_of_pos _ hp]
      exact h
    · rw [List.find?_cons_of_neg _ (by simpa using hp)] at h
      rw [List.cons_append, List.find?_cons_of_neg _ (by simpa using hp)]
      exact ih h

theorem find?_mapUpd (l : List PotEntry) (eid : Nat) (g : PotEntry → PotEntry)
    (hg : ∀ e, (g e).entry_id = e.entry_id) (k : Nat) :
    (mapUpd l eid g).find? (fun e => decide (e.entry_id = k)) =
      (l.find? (fun e => decide (e.entry_id = k))).map
        (fun e => if e.entry_id = eid then g e else e) := by
  induction l with
  | nil => rfl
  | cons e l ih =>
    have hid : (if e.entry_id = eid then g e else e).entry_id = e.entry_id := by
      split
      · exact hg e
      · rfl
    by_cases hk : e.entry_id = k
    · rw [mapUpd, List.map_cons,
        List.find?_cons_of_pos _ (by simp only [decide_eq_true_eq]; rw [hid]; exact hk),
        List.find?_cons_of_pos _ (by simp only [decide_eq_true_eq]; exact hk)]
      rfl
    · rw [mapUpd, List.map_cons,
        List.find?_cons_of_neg _ (by simp only [decide_eq_true_eq]; rw [hid]; exact hk),
        List.find?_cons_of_neg _ (by simp only [decide_eq_true_eq]; exact hk)]
      exact ih

theorem statusOf_confirm_entry (db : DB) (now : Int) (eid k : Nat) :
    statusOf (confirm_entry db now eid) k =
      (statusOf db k).map (fun s => if k = eid then .confirmed else s) := by
  unfold statusOf confirm_entry
  rw [show ({ db with entries := mapUpd db.entries eid (fun e => { e with status := EntryStatus.confirmed, confirmed_at := some now }) } : DB).entries = mapUpd db.entries eid (fun e => { e with status := EntryStatus.confirmed, confirmed_at := some now }) from rfl,
    find?_mapUpd db.entries eid (fun e => { e with status := EntryStatus.confirmed, confirmed_at := some now }) (fun e => rfl) k]
  cases hf : db.entries.find? (fun e => decide (e.entry_id = k)) with
  | none => rfl
  | some e =>
    have he : e.entry_id = k := by
      have := List.find?_some hf
      simpa using this
    subst he
    simp only [Option.map_some']
    by_cases h : e.entry_id = eid
    · simp [h]
    · simp [h]

theorem statusOf_deny_entry (db : DB) (eid k : Nat) :
    statusOf (deny_entry db eid) k =
      (statusOf db k).map (fun s => if k = eid then .denied else s) := by
  unfold statusOf deny_entry
  rw [show ({ db with entries := mapUpd db.entries eid (fun e => { e with status := EntryStatus.denied }) } : DB).entries = mapUpd db.entries eid (fun e => { e with status := EntryStatus.denied }) from rfl,
    find?_mapUpd db.entries eid (fun e => { e with status := EntryStatus.denied }) (fun e => rfl) k]
  cases hf : db.entries.find? (fun e => decide (e.entry_id = k)) with
  | none => rfl
  | some e =>
    have he : e.entry_id = k := by
      have := List.find?_some hf
      simpa using this
    subst he
    simp only [Option.map_some']
    by_cases h : e.entry_id = eid
    · simp [h]
    · simp [h]

theorem statusOf_of_entries_eq {db db2 : DB} (h : db2.entries = db.entries) (k : Nat) :
    statusOf db2 k = statusOf db k := by
  unfold statusOf
  rw [h]

theorem find?_eq_of_mem_of_nodup (l : List PotEntry)
    (hnd : (l.map (fun e => e.entry_id)).Nodup) (e : PotEntry) (he : e ∈ l) :
    l.find? (fun x => decide (x.entry_id = e.entry_id)) = some e := by
  induction l with
  | nil => cases he
  | cons a l ih =>
    rw [List.map_cons, List.nodup_cons] at hnd
    rcases List.mem_cons.mp he with heq | hm
    · rw [heq, List.find?_cons_of_pos _ (by simp)]
    · by_cases hpa : a.entry_id = e.entry_id
      · exact absurd (hpa ▸ List.mem_map_of_mem _ hm) hnd.1
      · rw [List.find?_cons_of_neg _ (by simpa using hpa)]
        exact ih hnd.2 hm

theorem statusOf_of_mem (db : DB) (hwf : WF db) (e : PotEntry) (he : e ∈ db.entries) :
    statusOf db e.entry_id = some e.status := by
  unfold statusOf
  rw [find?_eq_of_mem_of_nodup db.entries hwf e he]
  rfl

theorem mem_joined_read (db : DB) (cond : PotEntry → Prop) [DecidablePred cond]
    (hcond : ∀ e, cond e → e.status = .unconfirmed) (row : PotEntry × String)
    (h : row ∈ List.insertionSort rowEarlier
      (db.entries.filterMap (fun e => if cond e then joinPotGuild db e else none))) :
    row.1 ∈ db.entries ∧ row.1.status = .unconfirmed := by
  rw [(List.perm_insertionSort rowEarlier _).mem_iff] at h
  obtain ⟨e, he, hfe⟩ := List.mem_filterMap.mp h
  by_cases hc : cond e
  · rw [if_pos hc] at hfe
    unfold joinPotGuild at hfe
    cases hp : db.pots.find? (fun p => decide (p.pot_id = e.pot_id)) with
    | none => rw [hp] at hfe; cases hfe
    | some p =>
      rw [hp] at hfe
      simp only [Option.map_some', Option.some.injEq] at hfe
      rw [← hfe]
      exact ⟨he, hcond e hc⟩
  · rw [if_neg hc] at hfe
    cases hfe

theorem mem_unconfirmed_read (db : DB) (now : Int) (row : PotEntry × String)
    (h : row ∈ get_unconfirmed_entries db now) :
    row.1 ∈ db.entries ∧ row.1.status = .unconfirmed :=
  mem_joined_read db (fun e => e.status = .unconfirmed ∧ now - 3600 < e.created_at)
    (fun _ hc => hc.1) row h

theorem mem_expired_read (db : DB) (now : Int) (row : PotEntry × String)
    (h : row ∈ get_expired_entries db now) :
    row.1 ∈ db.entries ∧ row.1.status = .unconfirmed :=
  mem_joined_read db (fun e => e.status = .unconfirmed ∧ e.created_at ≤ now - 3600)
    (fun _ hc => hc.1) row h

theorem entries_win_pot (db : DB) (now : Int) (gid wid : String) (amt : Int) :
    (win_pot db now gid wid amt).entries = db.entries := rfl

theorem entries_instant_win_payout (db : DB) (now : Int) (gid did : String)
    (sendOk : String → Int → Bool) :
    (instant_win_payout db now gid did sendOk).1.entries = db.entries := by
  rcases instant_win_payout_cases db now gid did sendOk with h | ⟨st, _, _, heq⟩
  · rw [h]
  · rw [heq]
    rfl

theorem entryIds_mapUpd (l : List PotEntry) (eid : Nat) (g : PotEntry → PotEntry)
    (hg : ∀ e, (g e).entry_id = e.entry_id) :
    (mapUpd l eid g).map (fun e => e.entry_id) = l.map (fun e => e.entry_id) := by
  unfold mapUpd
  rw [List.map_map]
  refine List.map_congr_left ?_
  intro e _
  show (if e.entry_id = eid then g e else e).entry_id = e.entry_id
  split
  · exact hg e
  · rfl

theorem entryIds_confirm_entry (db : DB) (now : Int) (eid : Nat) :
    entryIds (confirm_entry db now eid) = entryIds db :=
  entryIds_mapUpd db.entries eid _ (fun _ => rfl)

theorem entryIds_deny_entry (db : DB) (eid : Nat) :
    entryIds (deny_entry db eid) = entryIds db :=
  entryIds_mapUpd db.entries eid _ (fun _ => rfl)

theorem entryIds_of_entries_eq {db db2 : DB} (h : db2.entries = db.entries) :
    entryIds db2 = entryIds db := by
  unfold entryIds
  rw [h]

/-- Status evolution of the confirmation pass, relative to the database the
snapshot was read from: every entry keeps its status, except that
`unconfirmed` entries may become `confirmed`. -/
theorem confirmationPass_forward (db : DB) (now : Int) (accepted : List String)
    (sendOk : String → Int → Bool) (hwf : WF db) :
    (∀ (eid : Nat) (s : EntryStatus), statusOf db eid = some s →
      statusOf (confirmationPass db now accepted sendOk).1 eid = some s ∨
        (s = .unconfirmed ∧
          statusOf (confirmationPass db now accepted sendOk).1 eid = some .confirmed)) ∧
    entryIds (confirmationPass db now accepted sendOk).1 = entryIds db := by
  unfold confirmationPass
  have main : ∀ (acc : DB × List Announcement),
      ((∀ (eid : Nat) (s : EntryStatus), statusOf db eid = some s →
        statusOf acc.1 eid = some s ∨
          (s = .unconfirmed ∧ statusOf acc.1 eid = some .confirmed)) ∧
        entryIds acc.1 = entryIds db) →
      ((∀ (eid : Nat) (s : EntryStatus), statusOf db eid = some s →
        statusOf ((get_unconfirmed_entries db now).foldl
          (confirmationStep now accepted sendOk) acc).1 eid = some s ∨
          (s = .unconfirmed ∧ statusOf ((get_unconfirmed_entries db now).foldl
            (confirmationStep now accepted sendOk) acc).1 eid = some .confirmed)) ∧
        entryIds ((get_unconfirmed_entries db now).foldl
          (confirmationStep now accepted sendOk) acc).1 = entryIds db) := by
    intro acc hacc
    refine foldl_inv (confirmationStep now accepted sendOk)
      (fun acc => (∀ (eid : Nat) (s : EntryStatus), statusOf db eid = some s →
        statusOf acc.1 eid = some s ∨
          (s = .unconfirmed ∧ statusOf acc.1 eid = some .confirmed)) ∧
        entryIds acc.1 = entryIds db)
      (fun row => row.1 ∈ db.entries ∧ row.1.status = .unconfirmed)
      (get_unconfirmed_entries db now) (fun row hrow => mem_unconfirmed_read db now row hrow)
      ?_ acc hacc
    intro b row hS hP
    unfold confirmationStep
    by_cases hin : row.1.stackcoin_request_id ∈ accepted
    · rw [if_pos hin, if_neg (by rw [hS.2]; exact fun hco => nomatch hco)]
      have hrow0 : statusOf db row.1.entry_id = some .unconfirmed := by
        have := statusOf_of_mem db hwf row.1 hS.1
        rw [hS.2] at this
        exact this
      constructor
      · intro eid s h0
        rw [statusOf_confirm_entry]
        by_cases heid : eid = row.1.entry_id
        · have hs : s = .unconfirmed := by
            rw [heid] at h0
            rw [h0] at hrow0
            exact (Option.some.injEq _ _ ▸ hrow0).symm ▸ rfl
          right
          refine ⟨hs, ?_⟩
          rcases hP.1 eid s h0 with h1 | ⟨_, h1⟩ <;>
            rw [h1] <;> simp [heid]
        · rcases hP.1 eid s h0 with h1 | ⟨h2, h1⟩
          · left
            rw [h1]
            simp [heid]
          · right
            refine ⟨h2, ?_⟩
            rw [h1]
            simp [heid]
      · rw [entryIds_confirm_entry]
        exact hP.2
    · rw [if_neg hin]
      exact hP
  have base : (∀ (eid : Nat) (s : EntryStatus), statusOf db eid = some s →
      statusOf (db, ([] : List Announcement)).1 eid = some s ∨
        (s = .unconfirmed ∧ statusOf (db, ([] : List Announcement)).1 eid = some .confirmed)) ∧
      entryIds (db, ([] : List Announcement)).1 = entryIds db :=
    ⟨fun _ _ h0 => Or.inl h0, rfl⟩
  exact main (db, []) base

/-- Status evolution of the expiry pass: every entry keeps its status, except
that `unconfirmed` entries may become `denied`. -/
theorem expiryPass_forward (db : DB) (now : Int) (denyOk : String → Bool) (hwf : WF db) :
    (∀ (eid : Nat) (s : EntryStatus), statusOf db eid = some s →
      statusOf (expiryPass db now denyOk) eid = some s ∨
        (s = .unconfirmed ∧ statusOf (expiryPass db now denyOk) eid = some .denied)) ∧
    entryIds (expiryPass db now denyOk) = entryIds db := by
  unfold expiryPass
  refine foldl_inv (expiryStep denyOk)
    (fun d => (∀ (eid : Nat) (s : EntryStatus), statusOf db eid = some s →
      statusOf d eid = some s ∨
        (s = .unconfirmed ∧ statusOf d eid = some .denied)) ∧
      entryIds d = entryIds db)
    (fun row => row.1 ∈ db.entries ∧ row.1.status = .unconfirmed)
    (get_expired_entries db now) (fun row hrow => mem_expired_read db now row hrow)
    ?_ db ⟨fun _ _ h0 => Or.inl h0, rfl⟩
  intro b row hS hP
  unfold expiryStep
  by_cases hd : denyOk row.1.stackcoin_request_id = true
  · rw [if_pos hd]
    have hrow0 : statusOf db row.1.entry_id = some .unconfirmed := by
      have := statusOf_of_mem db hwf row.1 hS.1
      rw [hS.2] at this
      exact this
    constructor
    · intro eid s h0
      rw [statusOf_deny_entry]
      by_cases heid : eid = row.1.entry_id
      · have hs : s = .unconfirmed := by
          rw [heid] at h0
          rw [h0] at hrow0
          exact (Option.some.injEq _ _ ▸ hrow0).symm ▸ rfl
        right
        refine ⟨hs, ?_⟩
        rcases hP.1 eid s h0 with h1 | ⟨_, h1⟩ <;>
          rw [h1] <;> simp [heid]
      · rcases hP.1 eid s h0 with h1 | ⟨h2, h1⟩
        · left
          rw [h1]
          simp [heid]
        · right
          refine ⟨h2, ?_⟩
          rw [h1]
          simp [heid]
    · rw [entryIds_deny_entry]
      exact hP.2
  · rw [if_neg hd]
    exact hP

/-- Status evolution of a whole reconciliation tick. -/
theorem process_requests_forward (db : DB) (now : Int) (accepted : List String)
    (sendOk : String → Int → Bool) (denyOk : String → Bool) (hwf : WF db) :
    EntriesForward db (process_stackcoin_requests db now accepted sendOk denyOk).1 ∧
    entryIds (process_stackcoin_requests db now accepted sendOk denyOk).1 = entryIds db := by
  have h1 := confirmationPass_forward db now accepted sendOk hwf
  have hwf2 : WF (confirmationPass db now accepted sendOk).1 := by
    unfold WF
    rw [h1.2]
    exact hwf
  have h2 := expiryPass_forward (confirmationPass db now accepted sendOk).1 now denyOk hwf2
  constructor
  · intro eid s h0
    rcases h1.1 eid s h0 with ha | ⟨hs, ha⟩
    · rcases h2.1 eid s ha with hb | ⟨hs2, hb⟩
      · exact Or.inl hb
      · exact Or.inr ⟨hs2, .denied, hb, fun hc => nomatch hc⟩
    · rcases h2.1 eid .confirmed ha with hb | ⟨hs2, _⟩
      · exact Or.inr ⟨hs, .confirmed, hb, fun hc => nomatch hc⟩
      · exact absurd hs2 (fun hc => nomatch hc)
  · show entryIds (expiryPass (confirmationPass db now accepted sendOk).1 now denyOk) = entryIds db
    rw [h2.2, h1.2]

theorem le_foldl_max (l : List Nat) : ∀ a : Nat, a ≤ l.foldl max a := by
  induction l with
  | nil => intro a; exact Nat.le_refl a
  | cons x l ih => intro a; exact Nat.le_trans (Nat.le_max_left a x) (ih (max a x))

theorem mem_le_foldl_max (l : List Nat) : ∀ a x : Nat, x ∈ l → x ≤ l.foldl max a := by
  induction l with
  | nil => intro _ _ hx; cases hx
  | cons y l ih =>
    intro a x hx
    rcases List.mem_cons.mp hx with heq | hx2
    · rw [heq]
      exact Nat.le_trans (Nat.le_max_right a y) (le_foldl_max l (max a y))
    · exact ih (max a y) x hx2

theorem entry_id_lt_nextEntryId (db : DB) (e : PotEntry) (he : e ∈ db.entries) :
    e.entry_id < nextEntryId db := by
  unfold nextEntryId
  have := mem_le_foldl_max (db.entries.map (fun x => x.entry_id)) 0 e.entry_id
    (List.mem_map_of_mem _ he)
  omega

theorem statusOf_create_pot_entry (db : DB) (now : Int) (pid : Nat)
    (did gid reqId : String) (iw : Bool) (k : Nat) (s : EntryStatus)
    (h : statusOf db k = some s) :
    statusOf (create_pot_entry db now pid did gid reqId iw).1 k = some s := by
  unfold statusOf at h
  cases hf : db.entries.find? (fun e => decide (e.entry_id = k)) with
  | none => rw [hf] at h; cases h
  | some e =>
    rw [hf] at h
    simp only [Option.map_some', Option.some.injEq] at h
    have hek : e.entry_id = k := by simpa using List.find?_some hf
    have hmem : e ∈ db.entries := List.mem_of_find?_eq_some hf
    have hlt : k < nextEntryId db := hek ▸ entry_id_lt_nextEntryId db e hmem
    have happ : (db.entries ++
        [(⟨nextEntryId db, pid, did, gid, 5, .unconfirmed, reqId, now, none⟩ : PotEntry)]).find?
        (fun e => decide (e.entry_id = k)) = some e := find?_append_of_some _ hf
    unfold create_pot_entry statusOf
    cases iw with
    | false =>
      simp only [Bool.false_eq_true, if_false]
      rw [happ, Option.map_some', h]
    | true =>
      simp only [if_true]
      rw [find?_mapUpd
          (db.entries ++ [(⟨nextEntryId db, pid, did, gid, 5, .unconfirmed, reqId, now, none⟩ : PotEntry)])
          (nextEntryId db) (fun e => { e with status := EntryStatus.instant_win })
          (fun e => rfl) k,
        happ, Option.map_some']
      have hne : e.entry_id ≠ nextEntryId db := by omega
      rw [if_neg hne, Option.map_some', h]

theorem entryIds_create_pot_entry (db : DB) (now : Int) (pid : Nat)
    (did gid reqId : String) (iw : Bool) :
    entryIds (create_pot_entry db now pid did gid reqId iw).1 =
      entryIds db ++ [nextEntryId db] := by
  unfold create_pot_entry entryIds
  cases iw with
  | false =>
    simp only [Bool.false_eq_true, if_false]
    rw [List.map_append]
    rfl
  | true =>
    simp only [if_true]
    rw [entryIds_mapUpd
        (db.entries ++ [(⟨nextEntryId db, pid, did, gid, 5, .unconfirmed, reqId, now, none⟩ : PotEntry)])
        (nextEntryId db) (fun e => { e with status := EntryStatus.instant_win })
        (fun e => rfl),
      List.map_append]
    rfl

theorem entriesForward_of_entries_eq {db db2 : DB} (h : db2.entries = db.entries) :
    EntriesForward db db2 := by
  intro eid s h0
  rw [statusOf_of_entries_eq h]
  exact Or.inl h0

theorem WF_of_entries_eq {db db2 : DB} (h : db2.entries = db.entries) (hwf : WF db) :
    WF db2 := by
  unfold WF
  rw [entryIds_of_entries_eq h]
  exact hwf

theorem entriesForward_trans {db1 db2 db3 : DB} (h12 : EntriesForward db1 db2)
    (h23 : EntriesForward db2 db3) : EntriesForward db1 db3 := by
  intro eid s h0
  rcases h12 eid s h0 with h | ⟨hs, t2, ht2, hne⟩
  · exact h23 eid s h
  · rcases h23 eid t2 ht2 with h | ⟨_, t3, ht3, hne3⟩
    · exact Or.inr ⟨hs, t2, h, hne⟩
    · exact Or.inr ⟨hs, t3, ht3, hne3⟩

theorem enter_pot_forward (db : DB) (now : Int) (gid did reqId : String)
    (userOk idOk reqOk instantWin : Bool) (hwf : WF db) :
    EntriesForward db (enter_pot db now gid did reqId userOk idOk reqOk instantWin).1 ∧
    WF (enter_pot db now gid did reqId userOk idOk reqOk instantWin).1 := by
  rcases enter_pot_outcomes db now gid did reqId userOk idOk reqOk instantWin with
    ⟨hent, _⟩ | ⟨_, _, db2, pid, hent, heq⟩
  · exact ⟨entriesForward_of_entries_eq hent, WF_of_entries_eq hent hwf⟩
  · constructor
    · intro eid s h0
      rw [heq]
      refine Or.inl (statusOf_create_pot_entry db2 now pid did gid reqId instantWin eid s ?_)
      rw [statusOf_of_entries_eq hent]
      exact h0
    · unfold WF
      rw [heq, entryIds_create_pot_entry, entryIds_of_entries_eq hent]
      have hfresh : nextEntryId db2 ∉ entryIds db := by
        intro hmem
        obtain ⟨e, he, hide⟩ := List.mem_map.mp hmem
        have h1 : e.entry_id < nextEntryId db2 := by
          have h2 : e.entry_id < nextEntryId db := entry_id_lt_nextEntryId db e he
          have h3 : nextEntryId db2 = nextEntryId db := by
            unfold nextEntryId
            rw [hent]
          omega
        omega
      simp only [List.nodup_append, List.nodup_cons, List.not_mem_nil, not_false_iff,
        List.nodup_nil, and_true, true_and]
      refine ⟨hwf, ?_⟩
      intro a ha hb
      rcases List.mem_singleton.mp hb with heq2
      rw [heq2] at ha
      exact hfresh ha

theorem entries_daily_draw (db : DB) (now : Int) (gid : String) (coin : Bool) (idx : Nat)
    (sendOk : String → Int → Bool) :
    (daily_pot_draw_guild db now gid coin idx sendOk).1.entries = db.entries := by
  rcases daily_draw_cases db now gid coin idx sendOk with h | ⟨w, st, _, _, heq⟩
  · rw [h]
  · rw [heq]
    rfl

theorem entries_force_end (db : DB) (now : Int) (gid : String) (idx : Nat)
    (sendOk : String → Int → Bool) :
    (force_end_pot_guild db now gid idx sendOk).1.entries = db.entries := by
  rcases force_end_cases db now gid idx sendOk with h | ⟨w, st, _, _, heq⟩
  · rw [h]
  · rw [heq]
    rfl

theorem applyOp_forward (db : DB) (op : Op) (hwf : WF db) :
    EntriesForward db (applyOp db op) ∧ WF (applyOp db op) := by
  cases op with
  | enter now gid did reqId u i r w => exact enter_pot_forward db now gid did reqId u i r w hwf
  | reconcile now accepted s d =>
    have h := process_requests_forward db now accepted s d hwf
    refine ⟨h.1, ?_⟩
    unfold WF
    rw [show entryIds (applyOp db (.reconcile now accepted s d)) =
      entryIds (process_stackcoin_requests db now accepted s d).1 from rfl, h.2]
    exact hwf
  | daily now gid c idx s =>
    have h := entries_daily_draw db now gid c idx s
    exact ⟨entriesForward_of_entries_eq h, WF_of_entries_eq h hwf⟩
  | forceEnd now gid idx s =>
    have h := entries_force_end db now gid idx s
    exact ⟨entriesForward_of_entries_eq h, WF_of_entries_eq h hwf⟩

theorem applyOps_forward (ops : List Op) :
    ∀ db : DB, WF db → EntriesForward db (applyOps db ops) := by
  induction ops with
  | nil => exact fun db _ eid s h0 => Or.inl h0
  | cons op ops ih =>
    intro db hwf
    have h1 := applyOp_forward db op hwf
    exact entriesForward_trans h1.1 (ih (applyOp db op) h1.2)

/-- C8: across every sequence of store operations as the program invokes them
(entry admission, reconciliation ticks, daily draws, forced draws), an
entry's status only moves forward along
`unconfirmed → (confirmed | instant_win | denied)`: an entry never returns to
`unconfirmed`, and an entry that has left `unconfirmed` never changes status
again. -/
theorem c8_entry_status_forward (ops : List Op) (db : DB) (hwf : WF db) (eid : Nat)
    (s t : EntryStatus) (h1 : statusOf db eid = some s)
    (h2 : statusOf (applyOps db ops) eid = some t) :
    s = t ∨ (s = .unconfirmed ∧ t ≠ .unconfirmed) := by
  rcases applyOps_forward ops db hwf eid s h1 with h | ⟨hs, t2, ht2, hne⟩
  · rw [h2] at h
    exact Or.inl (Option.some.inj h).symm
  · rw [h2] at ht2
    have heq : t = t2 := Option.some.inj ht2
    exact Or.inr ⟨hs, heq ▸ hne⟩

/-- Witness for C8: in `pendingEntryDb` entry 1 is `unconfirmed`; after a
reconciliation tick that sees its request accepted it is `confirmed` — a
legal forward move. -/
theorem c8_witness :
    EntryStatus.unconfirmed = .confirmed ∨
      (EntryStatus.unconfirmed = .unconfirmed ∧ EntryStatus.confirmed ≠ .unconfirmed) :=
  c8_entry_status_forward [.reconcile 100 ["r1"] (fun _ _ => false) (fun _ => true)]
    pendingEntryDb (by unfold WF; decide) 1 .unconfirmed .confirmed (by decide) (by decide)

/-! ## C1 -/

theorem confirmationPass_no_payout (db : DB) (now : Int) (accepted : List String)
    (sendOk : String → Int → Bool) :
    (confirmationPass db now accepted sendOk).1.pots = db.pots ∧
    (confirmationPass db now accepted sendOk).1.users = db.users ∧
    (confirmationPass db now accepted sendOk).2 = [] := by
  unfold confirmationPass
  refine foldl_inv (confirmationStep now accepted sendOk)
    (fun acc => acc.1.pots = db.pots ∧ acc.1.users = db.users ∧ acc.2 = [])
    (fun row => row.1.status = .unconfirmed)
    (get_unconfirmed_entries db now)
    (fun row hrow => (mem_unconfirmed_read db now row hrow).2)
    ?_ (db, []) ⟨rfl, rfl, rfl⟩
  intro b row hS hP
  unfold confirmationStep
  by_cases hin : row.1.stackcoin_request_id ∈ accepted
  · rw [if_pos hin, if_neg (by rw [hS]; exact fun hco => nomatch hco)]
    exact ⟨hP.1, hP.2.1, hP.2.2⟩
  · rw [if_neg hin]
    exact hP

theorem expiryPass_pots_users (db : DB) (now : Int) (denyOk : String → Bool) :
    (expiryPass db now denyOk).pots = db.pots ∧
    (expiryPass db now denyOk).users = db.users := by
  unfold expiryPass
  refine foldl_inv (expiryStep denyOk)
    (fun d => d.pots = db.pots ∧ d.users = db.users)
    (fun _ => True) (get_expired_entries db now) (fun _ _ => trivial)
    ?_ db ⟨rfl, rfl⟩
  intro b row _ hP
  unfold expiryStep
  by_cases hd : denyOk row.1.stackcoin_request_id = true
  · rw [if_pos hd]
    exact hP
  · rw [if_neg hd]
    exact hP

/-- C1 (refuting the claim as a code bug): the confirmation pass reads only
entries whose stored status is `unconfirmed`, so an entry whose status is
`instant_win` never appears in the loop and its payout branch is
unreachable — on `instantWinDb`, whose instant-win entry's request `42` is in
the accepted list, a reconciliation tick changes nothing and emits nothing;
in general the reconciliation tick never produces a payout or announcement
and never touches the pots or users tables. -/
theorem c1_instant_win_payout_unreachable :
    process_stackcoin_requests instantWinDb 100 ["42"] (fun _ _ => true) (fun _ => true) =
      (instantWinDb, []) ∧
    ∀ (db : DB) (now : Int) (accepted : List String) (sendOk : String → Int → Bool)
      (denyOk : String → Bool),
      (process_stackcoin_requests db now accepted sendOk denyOk).2 = [] ∧
      (process_stackcoin_requests db now accepted sendOk denyOk).1.pots = db.pots ∧
      (process_stackcoin_requests db now accepted sendOk denyOk).1.users = db.users := by
  refine ⟨by decide, ?_⟩
  intro db now accepted sendOk denyOk
  have h1 := confirmationPass_no_payout db now accepted sendOk
  have h2 := expiryPass_pots_users (confirmationPass db now accepted sendOk).1 now denyOk
  unfold process_stackcoin_requests
  refine ⟨h1.2.2, ?_, ?_⟩
  · dsimp only
    rw [h2.1, h1.1]
  · dsimp only
    rw [h2.2, h1.2.1]

end LuckyPot
